import Mathlib

/-
Verification of the matching and token-normalization engine of the
mitsumori-ai backend (src/backend/app): utils.py, match.py,
semantic_match.py and the token-resolution loop of main.py, as a shallow
embedding in Lean.  Machine strings are lists of characters; the two
Unicode-table operations used by the code (unicodedata.normalize NFKC and
str.upper) are passed as explicit parameters bundled in a Uni value, since
their full tables are external data; a concrete fragment instance faithful
to the Unicode character database on the code points exercised here is
provided for concrete evaluations.
-/

/-- Bundle of the two Unicode-table operations the source calls:
nfkc models unicodedata.normalize applied with the NFKC form, and upper
models the Python str.upper full case mapping. -/
structure Uni where
  nfkc : String → String
  upper : String → String

/-- Characters accepted by the Python regular-expression class backslash-s
and by str.isspace / str.strip: the 29 code points for which the CPython
str.isspace predicate holds. -/
def pySpaceChars : List Char :=
  ['\u0009',
   '\u000A',
   '\u000B',
   '\u000C',
   '\u000D',
   '\u001C',
   '\u001D',
   '\u001E',
   '\u001F',
   '\u0020',
   '\u0085',
   '\u00A0',
   '\u1680',
   '\u2000',
   '\u2001',
   '\u2002',
   '\u2003',
   '\u2004',
   '\u2005',
   '\u2006',
   '\u2007',
   '\u2008',
   '\u2009',
   '\u200A',
   '\u2028',
   '\u2029',
   '\u202F',
   '\u205F',
   '\u3000']

/-- Whitespace predicate of the Python runtime (str.isspace). -/
def isPySpace (c : Char) : Bool := pySpaceChars.contains c

/-- Replacement of each maximal whitespace run by one ASCII space, the
effect of re.sub applied with a one-or-more-whitespace pattern and a
single-space replacement; the Boolean flag records whether the previously
read character was whitespace. -/
def collapseWsGo : Bool → List Char → List Char
  | _, [] => []
  | prevWs, c :: rest =>
    if isPySpace c then
      if prevWs then collapseWsGo true rest
      else ' ' :: collapseWsGo true rest
    else c :: collapseWsGo false rest

/-- Collapse every maximal whitespace run of a character list to a single
space, as re.sub does in normalize_text (utils.py line 32). -/
def collapseWs (l : List Char) : List Char := collapseWsGo false l

/-- Removal of leading and trailing Python whitespace, the effect of the
str.strip method with no argument. -/
def pyStrip (l : List Char) : List Char :=
  ((l.dropWhile isPySpace).reverse.dropWhile isPySpace).reverse

/-- String form of pyStrip: the Python str.strip method. -/
def pyStripS (s : String) : String := String.mk (pyStrip s.data)

/-- The three str.replace calls of normalize_text (utils.py line 31) map
the en dash, the em dash and the minus sign to the ASCII hyphen; since
each pattern is a single character and no pattern equals the replacement,
the three sequential scans equal this single character map. -/
def replaceDashes (s : String) : String :=
  String.mk (s.data.map fun c =>
    if c = '\u2013' ∨ c = '\u2014' ∨ c = '\u2212' then '-' else c)

/-- normalize_text from utils.py lines 26 to 33: a None value gives the
empty string, otherwise NFKC normalization, uppercasing, dash mapping,
whitespace collapsing and stripping are applied in order. -/
def normalize_text (u : Uni) (value : Option String) : String :=
  match value with
  | none => ""
  | some v =>
    String.mk (pyStrip (collapseWs (replaceDashes (u.upper (u.nfkc v))).data))

/-- First character class of TOKEN_PATTERN in utils.py line 20: an ASCII
uppercase letter or an ASCII digit. -/
def isUpperDigit (c : Char) : Bool :=
  ('A' ≤ c ∧ c ≤ 'Z') ∨ ('0' ≤ c ∧ c ≤ '9')

/-- Tail character class of TOKEN_PATTERN: an ASCII uppercase letter, an
ASCII digit, a hyphen, an underscore or a slash. -/
def isTokTail (c : Char) : Bool :=
  isUpperDigit c || c = '-' || c = '_' || c = '/'

/-- Left-to-right scan of re.finditer with TOKEN_PATTERN: at a position
whose character is in the first class, the greedy tail run is read; if at
least three tail characters follow, the match is emitted and scanning
resumes after it, otherwise scanning advances one position.  The fuel
argument bounds the recursion by the list length and never runs out when
initialized with it. -/
def tokenScanGo : ℕ → List Char → List String
  | 0, _ => []
  | _ + 1, [] => []
  | f + 1, c :: rest =>
    if isUpperDigit c then
      let run := rest.takeWhile isTokTail
      if 3 ≤ run.length then
        String.mk (c :: run) :: tokenScanGo f (rest.drop run.length)
      else tokenScanGo f rest
    else tokenScanGo f rest

/-- All matches of TOKEN_PATTERN in a character list, in scan order. -/
def tokenScan (l : List Char) : List String := tokenScanGo l.length l

/-- BLACKLIST from utils.py lines 9 to 18. -/
def BLACKLIST : List String :=
  ["SCALE", "DATE", "MM", "ISO", "PAGE", "COPY", "SAMPLE", "MODEL"]

/-- Code-point lexicographic comparison of character lists, the order the
Python sorted builtin uses on strings. -/
def lexLe : List Char → List Char → Bool
  | [], _ => true
  | _ :: _, [] => false
  | a :: as, b :: bs =>
    if a.toNat < b.toNat then true
    else if b.toNat < a.toNat then false
    else lexLe as bs

/-- The Python string order as a relation on strings. -/
def pyStrLe (a b : String) : Prop := lexLe a.data b.data = true

instance : DecidableRel pyStrLe := fun a b => by unfold pyStrLe; infer_instance

/-- The Python string order is total. -/
theorem lexLe_total : ∀ a b, lexLe a b = true ∨ lexLe b a = true := by
  intro a
  induction a with
  | nil => intro b; left; simp [lexLe]
  | cons c cs ih =>
    intro b
    cases b with
    | nil => right; simp [lexLe]
    | cons d ds =>
      rcases Nat.lt_trichotomy c.toNat d.toNat with h | h | h
      · left; simp [lexLe, h]
      · rcases ih ds with h2 | h2
        · left; simp [lexLe, h, h2]
        · right; simp [lexLe, h.symm, h2]
      · right; simp [lexLe, h]

/-- The Python string order is transitive. -/
theorem lexLe_trans : ∀ a b c, lexLe a b = true → lexLe b c = true →
    lexLe a c = true := by
  intro a
  induction a with
  | nil => intro b c _ _; simp [lexLe]
  | cons x xs ih =>
    intro b c hab hbc
    cases b with
    | nil => simp [lexLe] at hab
    | cons y ys =>
      cases c with
      | nil => simp [lexLe] at hbc
      | cons z zs =>
        simp only [lexLe] at hab hbc ⊢
        split_ifs at hab hbc ⊢ <;> try omega
        all_goals first
        | rfl
        | exact ih ys zs hab hbc

instance : IsTotal String pyStrLe := ⟨fun a b => lexLe_total a.data b.data⟩

instance : IsTrans String pyStrLe :=
  ⟨fun a b c => lexLe_trans a.data b.data c.data⟩

/-- extract_tokens from utils.py lines 36 to 43: normalize the input, scan
for TOKEN_PATTERN matches, keep those containing a digit and not in the
blacklist, and return the distinct survivors in ascending order (the
Python code accumulates them in a set and sorts it; deduplicating the
scan list and sorting gives the same list). -/
def extract_tokens (u : Uni) (text : String) : List String :=
  let normalized := normalize_text u (some text)
  let kept := (tokenScan normalized.data).filter
    (fun t => t.data.any Char.isDigit && !(BLACKLIST.contains t))
  List.insertionSort pyStrLe kept.dedup

/-- Full uppercase mapping of one character, restricted to the fragment of
the Unicode character database exercised by the concrete inputs of this
development: ASCII letters map as usual, and the two Greek letters with
dialytika and tonos carry the decomposed full case mappings of
SpecialCasing.txt (U+0390 to U+0399 U+0308 U+0301, U+03B0 to U+03A5
U+0308 U+0301); every other character in the fragment is case-stable. -/
def upperFragChar (c : Char) : List Char :=
  if c = '\u0390' then ['\u0399', '\u0308', '\u0301']
  else if c = '\u03B0' then ['\u03A5', '\u0308', '\u0301']
  else [c.toUpper]

/-- Canonical composition pass of NFKC restricted to the same fragment:
ASCII is NFKC-stable, and the primary composites relevant here are
U+0399 U+0308 to U+03AA and U+03A5 U+0308 to U+03AB; the fuel argument
bounds the recursion and never runs out when initialized with the list
length, since every step shortens the list. -/
def nfkcFragGo : ℕ → List Char → List Char
  | 0, l => l
  | _ + 1, [] => []
  | _ + 1, [c] => [c]
  | f + 1, c :: d :: rest =>
    if c = '\u0399' ∧ d = '\u0308' then nfkcFragGo f ('\u03AA' :: rest)
    else if c = '\u03A5' ∧ d = '\u0308' then nfkcFragGo f ('\u03AB' :: rest)
    else c :: nfkcFragGo f (d :: rest)

/-- Concrete Uni instance, faithful to the Unicode character database on
the fragment described at upperFragChar and nfkcFragGo. -/
def uniFrag : Uni :=
  { nfkc := fun s => String.mk (nfkcFragGo s.data.length s.data)
    upper := fun s => String.mk ((s.data.map upperFragChar).flatten) }

/-- Python dict update on an insertion-ordered association list: writing to
an existing key replaces its value in place, a new key is appended at the
end. -/
def dictInsert {α : Type} (m : List (String × α)) (k : String) (v : α) :
    List (String × α) :=
  if m.any (fun p => p.1 = k) then
    m.map (fun p => if p.1 = k then (k, v) else p)
  else m ++ [(k, v)]

/-- Python dict get: the value of the first (unique) entry with the key. -/
def dictGet {α : Type} (m : List (String × α)) (k : String) : Option α :=
  (m.find? (fun p => p.1 = k)).map (·.2)

/-- Python dict values view: the values in insertion order. -/
def dictValues {α : Type} (m : List (String × α)) : List α := m.map (·.2)

/-- One row of the reference table after load, match.py lines 15 to 19:
hinban and kidou are stored normalized, zaiku is the optional stock
string. -/
structure MatchRow where
  hinban : String
  kidou : String
  zaiku : Option String
deriving DecidableEq

/-- One raw row of the reference CSV as pandas hands it to the load loop:
each named cell already rendered to a string by the str conversion in
match.py lines 35 to 37. -/
structure CsvRow where
  hinban : String
  kidou : String
  zaiku : String
deriving DecidableEq

/-- The reference CSV as parsed by pandas: the column names and the rows
in file order. -/
structure CsvTable where
  cols : List String
  rows : List CsvRow
deriving DecidableEq

/-- The two lookup structures of DatabaseMatcher, match.py lines 25 to 26:
the exact hinban map and the spec-token inverted index, both modelled as
insertion-ordered association lists with dict semantics. -/
structure DatabaseMatcher where
  hinban_map : List (String × MatchRow)
  kidou_map : List (String × List MatchRow)
deriving DecidableEq

/-- The setdefault-and-append of match.py line 42: append the row to the
list registered under the token, creating the entry at the end when the
token is new. -/
def kidouInsert (m : List (String × List MatchRow)) (k : String)
    (row : MatchRow) : List (String × List MatchRow) :=
  if m.any (fun p => p.1 = k) then
    m.map (fun p => if p.1 = k then (k, p.2 ++ [row]) else p)
  else m ++ [(k, [row])]

/-- Body of the load loop of match.py lines 34 to 42 for one CSV row:
normalize the hinban and kidou cells, build the MatchRow, register it in
the exact map only when the normalized hinban is non-empty, and register
it in the spec index under every token extracted from the normalized
kidou text. -/
def loadRowStep (u : Uni) (zaikuExists : Bool) (m : DatabaseMatcher)
    (r : CsvRow) : DatabaseMatcher :=
  let hinban := normalize_text u (some r.hinban)
  let kidou := normalize_text u (some r.kidou)
  let zaiku : Option String := if zaikuExists then some r.zaiku else none
  let row : MatchRow := ⟨hinban, kidou, zaiku⟩
  let hm := if hinban ≠ "" then dictInsert m.hinban_map hinban row
            else m.hinban_map
  let km := (extract_tokens u kidou).foldl (fun acc tok => kidouInsert acc tok row)
            m.kidou_map
  ⟨hm, km⟩

/-- DatabaseMatcher construction, match.py lines 29 to 42: reject the
table when the hinban or the kidou column is absent (the ValueError of
line 32), otherwise fold the load loop over the rows in order; the error
case returns no matcher at all. -/
def DatabaseMatcher.load (u : Uni) (t : CsvTable) :
    Except String DatabaseMatcher :=
  if "hinban" ∉ t.cols ∨ "kidou" ∉ t.cols then
    Except.error "CSVに \x27hinban\x27 と \x27kidou\x27 列が必要です。ファイルを確認してください。"
  else
    Except.ok (t.rows.foldl (loadRowStep u ("zaiku" ∈ t.cols)) ⟨[], []⟩)

/-- match_token from match.py lines 44 to 52: normalize the token, read
the exact map (zero or one row) and the spec index (zero or more rows)
independently and return both lists. -/
def DatabaseMatcher.match_token (u : Uni) (m : DatabaseMatcher)
    (token : String) : List MatchRow × List MatchRow :=
  let normalized := normalize_text u (some token)
  let hinban_matches := match dictGet m.hinban_map normalized with
    | some row => [row]
    | none => []
  let kidou_matches := (dictGet m.kidou_map normalized).getD []
  (hinban_matches, kidou_matches)

/-- retry from match.py lines 54 to 60: normalize the token, collect the
exact-map hit and the hinban of every row under the token in the spec
index, and return the distinct candidates sorted ascending (the Python
code passes the collected list through set and sorted; deduplicating the
concatenation and sorting gives the same list). -/
def DatabaseMatcher.retry (u : Uni) (m : DatabaseMatcher)
    (token : String) : List String :=
  let normalized := normalize_text u (some token)
  let c1 := match dictGet m.hinban_map normalized with
    | some row => [row.hinban]
    | none => []
  let c2 := ((dictGet m.kidou_map normalized).getD []).map (·.hinban)
  List.insertionSort pyStrLe (c1 ++ c2).dedup

/-- Length of the longest common prefix of two character lists. -/
def lcpLen : List Char → List Char → ℕ
  | a :: as, b :: bs => if a = b then lcpLen as bs + 1 else 0
  | _, _ => 0

/-- The find_longest_match search of difflib.SequenceMatcher with no junk
(the reference part numbers are far below the autojunk length threshold):
among all maximal matching blocks the one with the greatest size wins,
ties resolved by the earliest start in the first sequence and then in the
second; realized as a left-to-right scan over all start pairs keeping the
first strict improvement. -/
def bestTriple (a b : List Char) : ℕ × ℕ × ℕ :=
  (List.range a.length).foldl (fun best i =>
    (List.range b.length).foldl (fun best j =>
      let k := lcpLen (a.drop i) (b.drop j)
      if best.2.2 < k then (i, j, k) else best) best) (0, 0, 0)

/-- Total size of the matching blocks of difflib.SequenceMatcher: the
recursive divide at the longest match, as get_matching_blocks performs;
the fuel argument bounds the recursion and never runs out when
initialized with the combined length, since each recursive call strictly
shortens the combined length. -/
def matchSumF : ℕ → List Char → List Char → ℕ
  | 0, _, _ => 0
  | f + 1, a, b =>
    let t := bestTriple a b
    if t.2.2 = 0 then 0
    else
      matchSumF f (a.take t.1) (b.take t.2.1) + t.2.2 +
      matchSumF f (a.drop (t.1 + t.2.2)) (b.drop (t.2.1 + t.2.2))

/-- Total matched size of two character lists under the difflib
matching-block decomposition. -/
def matchSum (a b : List Char) : ℕ := matchSumF (a.length + b.length) a b

/-- The ratio method of difflib.SequenceMatcher as an exact rational:
twice the matched size over the combined length, and 1 when both inputs
are empty (the _calculate_ratio special case). -/
def seqRatioVal (a b : List Char) : ℚ :=
  if a.length + b.length = 0 then 1
  else (2 * matchSum a b : ℚ) / (a.length + b.length)

/-- Floor of a rational, computed by Euclidean division of the numerator
by the (positive) denominator. -/
def ratFloor (q : ℚ) : ℤ := Int.ediv q.num q.den

/-- Round-half-to-even on an exact rational, the rounding Python round
performs (the float scores here are modelled as exact rationals). -/
def roundHalfEven (x : ℚ) : ℤ :=
  let f := ratFloor x
  let r := x - f
  if r < 1 / 2 then f
  else if 1 / 2 < r then f + 1
  else if f % 2 = 0 then f else f + 1

/-- Python round applied with three digits, on the exact-rational model of
the score. -/
def pyRound3 (q : ℚ) : ℚ := (roundHalfEven (q * 1000) : ℚ) / 1000

/-- The Python substring containment test (the in operator on strings):
the needle occurs contiguously in the haystack, the empty needle always
matches. -/
def pyIn (needle hay : String) : Bool :=
  (List.range (hay.data.length + 1)).any
    (fun i => (hay.data.drop i).take needle.data.length = needle.data)

/-- MatchResult from semantic_match.py lines 51 to 60; the float score is
modelled as an exact rational. -/
structure MatchResult where
  input_hinban : String
  normalized : String
  match_status : String
  score : ℚ
  matched_hinban : Option String
  zaiku : Option String
  page : Option ℕ
  confidence : Option ℚ
deriving DecidableEq

/-- One candidate dict handed to _unique_items or _match_semantic_items:
the hinban value (defaulting to the empty string when absent, as the get
call with an empty-string default does) and the optional normalized
value. -/
structure SemItem where
  hinban : String
  normalized : Option String
deriving DecidableEq

/-- One deduplicated candidate as _unique_items emits it: the stripped
raw text and the non-empty normalized key. -/
structure NormItem where
  hinban : String
  normalized : String
deriving DecidableEq

/-- _normalize_candidate from semantic_match.py lines 63 to 66: NFKC
normalization, removal of every whitespace character (re.sub with a
one-or-more-whitespace pattern and an empty replacement), then
uppercasing. -/
def normCandidate (u : Uni) (v : String) : String :=
  u.upper (String.mk ((u.nfkc v).data.filter (fun c => !isPySpace c)))

/-- _unique_items from semantic_match.py lines 69 to 78: strip the hinban
value, normalize the normalized value (defaulting to the stripped
hinban), skip empty keys, and keep the first occurrence of each
normalized key in input order. -/
def uniqueItems (u : Uni) (l : List SemItem) : List NormItem :=
  l.foldl (fun acc it =>
    let h := pyStripS it.hinban
    let n := normCandidate u (it.normalized.getD h)
    if n = "" then acc
    else if acc.any (fun e => e.normalized = n) then acc
    else acc ++ [⟨h, n⟩]) []

/-- Letter class of REGEX_PATTERN in semantic_match.py line 48: an ASCII
uppercase letter. -/
def isUpperAlpha (c : Char) : Bool := 'A' ≤ c ∧ c ≤ 'Z'

/-- Two decimal digits start the list (the mandatory digit block of
REGEX_PATTERN; decimal digits outside ASCII do not occur in the fragment
modelled here). -/
def twoDigitsAt : List Char → Bool
  | d1 :: d2 :: _ => d1.isDigit && d2.isDigit
  | _ => false

/-- Left-to-right scan of re.finditer with REGEX_PATTERN (one to five
letters, two to six digits, then any alphanumeric tail): a match starts
at a position whose maximal letter run has length one to five and is
immediately followed by two digits; by greediness the match then extends
to the end of the maximal alphanumeric run, and scanning resumes after
it; otherwise scanning advances one position.  The fuel argument bounds
the recursion by the list length. -/
def semScanGo : ℕ → List Char → List String
  | 0, _ => []
  | _ + 1, [] => []
  | f + 1, c :: rest =>
    let s := c :: rest
    let letters := s.takeWhile isUpperAlpha
    if 1 ≤ letters.length ∧ letters.length ≤ 5 ∧
        twoDigitsAt (s.drop letters.length) then
      let tok := s.takeWhile isUpperDigit
      String.mk tok :: semScanGo f (s.drop tok.length)
    else semScanGo f rest

/-- All matches of REGEX_PATTERN in a character list, in scan order. -/
def semScan (l : List Char) : List String := semScanGo l.length l

/-- _fallback_regex_extraction from semantic_match.py lines 185 to 192:
uppercase then NFKC-normalize the text, collect every REGEX_PATTERN
match as a candidate dict with its normalized form, and deduplicate. -/
def fallbackRegex (u : Uni) (text : String) : List NormItem :=
  let normalizedText := u.nfkc (u.upper text)
  let candidates := (semScan normalizedText.data).map
    (fun tok => ({ hinban := tok, normalized := some (normCandidate u tok) } : SemItem))
  uniqueItems u candidates

/-- The zaiku-or-None idiom of semantic_match.py lines 216, 224, 230 and
257: an empty stock string is reported as absent. -/
def orNoneZ : Option String → Option String
  | some s => if s = "" then none else some s
  | none => none

/-- One step of the fuzzy scan of semantic_match.py lines 246 to 253: a
strictly greater ratio replaces the best pair, so the first row attaining
the maximum is kept. -/
def fuzzyStep (n : String) (acc : ℚ × Option MatchRow) (c : MatchRow) :
    ℚ × Option MatchRow :=
  let q := seqRatioVal n.data c.hinban.data
  if acc.1 < q then (q, some c) else acc

/-- The whole fuzzy scan over the exact-map rows, starting from a zero
best ratio and no best row. -/
def fuzzyScan (n : String) (rows : List MatchRow) : ℚ × Option MatchRow :=
  rows.foldl (fuzzyStep n) (0, none)

/-- The four-tier cascade of _match_semantic_items, semantic_match.py
lines 206 to 269, for one non-empty normalized candidate: exact lookup,
then the two-sided substring scan over the rows in index order (both
substring branches of the loop assign the same fields from the same row,
so the first row satisfying either test wins), then the spec-keyword
retry taking the first ranked candidate, then the fuzzy scan accepted at
the threshold. -/
def resolveCascade (u : Uni) (m : DatabaseMatcher) (θ : ℚ)
    (h n : String) : MatchResult :=
  match dictGet m.hinban_map n with
  | some row =>
    ⟨h, n, "EXACT", 1, some row.hinban, orNoneZ row.zaiku, none, none⟩
  | none =>
    match (dictValues m.hinban_map).find? (fun c =>
        (n ≠ "" && pyIn n c.hinban) || (c.hinban ≠ "" && pyIn c.hinban n)) with
    | some c =>
      ⟨h, n, "SUBSTR", 9 / 10, some c.hinban, orNoneZ c.zaiku, none, none⟩
    | none =>
      match DatabaseMatcher.retry u m n with
      | best :: _ =>
        ⟨h, n, "KIDOU", 22 / 25, some best,
         (dictGet m.hinban_map best).bind (·.zaiku), none, none⟩
      | [] =>
        let br := fuzzyScan n (dictValues m.hinban_map)
        match br.2 with
        | some row =>
          if θ ≤ br.1 then
            ⟨h, n, "FUZZY", pyRound3 br.1, some row.hinban,
             orNoneZ row.zaiku, none, none⟩
          else ⟨h, n, "NONE", 0, none, none, none, none⟩
        | none => ⟨h, n, "NONE", 0, none, none, none, none⟩

/-- Treatment of one item of _match_semantic_items: strip the hinban,
normalize the candidate (defaulting to the stripped hinban), skip the
item when the normalized text is empty (the continue of line 204), and
otherwise run the cascade. -/
def matchSemanticItem (u : Uni) (m : DatabaseMatcher) (θ : ℚ)
    (it : SemItem) : Option MatchResult :=
  let h := pyStripS it.hinban
  let n := normCandidate u (it.normalized.getD h)
  if n = "" then none
  else some (resolveCascade u m θ h n)

/-- _match_semantic_items from semantic_match.py lines 195 to 270 over a
list of candidate items. -/
def matchSemanticItems (u : Uni) (m : DatabaseMatcher) (θ : ℚ)
    (items : List SemItem) : List MatchResult :=
  items.filterMap (matchSemanticItem u m θ)

/-- The default fuzzy_threshold of _match_semantic_items. -/
def defaultFuzzyThreshold : ℚ := 0.82

/-- Outcome of one attempt of the OpenAI chat call in
extract_hinbans_with_gpt, as seen by the surrounding control flow: the
call raises (with the optional HTTP status carried by the exception), or
returns a response with no tool call, or the tool-call arguments fail to
parse as JSON (an exception without a status), or the parsed items value
is not a list, or it is a list of candidate dicts.  The external client
is modelled as the sequence of these outcomes indexed by attempt
number. -/
inductive ApiResult where
  | apiRaises (status : Option ℕ)
  | noToolCalls
  | argsUnparsable
  | itemsNotList
  | items (parsed : List SemItem)
deriving DecidableEq

/-- The transient-status test of semantic_match.py line 174. -/
def transientStatus : Option ℕ → Bool
  | some v => v ∈ [429, 500, 502, 503, 504]
  | none => false

/-- Result of extract_hinbans_with_gpt together with the backoff sleeps
it performed, in order; method is gpt_tool or regex_fallback as in the
source. -/
structure ExtractOut where
  method : String
  items : List NormItem
  sleeps : List ℚ
deriving DecidableEq

/-- The regex-fallback return value built at semantic_match.py lines 151,
163, 168, 180 and 182. -/
def fallbackOut (u : Uni) (text : String) : ExtractOut :=
  ⟨"regex_fallback", fallbackRegex u text, []⟩

/-- The retry loop of extract_hinbans_with_gpt, semantic_match.py lines
131 to 182, with max_attempts 3 and backoff base 3/2: the first argument
is the number of loop iterations still allowed (3 minus the attempts
already made), the second the attempt counter before increment.  A
raised transient status sleeps backoff to the power of the incremented
attempt counter and retries while attempts remain; every other failure
shape returns the regex fallback at once; a parsed list with a non-empty
deduplication is returned as gpt_tool. -/
def extractLoopR (u : Uni) (text : String) (trace : ℕ → ApiResult) :
    ℕ → ℕ → ExtractOut
  | 0, _ => fallbackOut u text
  | r + 1, attempt =>
    let a := attempt + 1
    match trace a with
    | .apiRaises status =>
      if transientStatus status ∧ a < 3 then
        let rest := extractLoopR u text trace r a
        { rest with sleeps := ((3 : ℚ) / 2) ^ a :: rest.sleeps }
      else fallbackOut u text
    | .noToolCalls => fallbackOut u text
    | .argsUnparsable => fallbackOut u text
    | .itemsNotList => fallbackOut u text
    | .items parsed =>
      let ni := uniqueItems u parsed
      if ni.isEmpty then fallbackOut u text
      else ⟨"gpt_tool", ni, []⟩

/-- extract_hinbans_with_gpt from semantic_match.py lines 81 to 182, with
the external client modelled by the attempt-indexed outcome trace. -/
def extract_hinbans_with_gpt (u : Uni) (text : String)
    (trace : ℕ → ApiResult) : ExtractOut :=
  extractLoopR u text trace 3 0

/-- StatusTotals from models.py lines 13 to 17. -/
structure StatusTotals where
  tokens : ℕ
  hit_hinban : ℕ
  hit_spec : ℕ
  fail : ℕ
deriving DecidableEq

/-- ResultRow from models.py lines 26 to 32.  The declared stock field is
zaiko; the constructor calls in main.py pass the keyword zaiku, which
matches no declared field, so pydantic drops it and the zaiko field
keeps its None default. -/
structure ResultRow where
  pdf_name : String
  page : ℕ
  token : String
  matched_type : String
  matched_hinban : String
  zaiko : Option String
deriving DecidableEq

/-- FailureRow from models.py lines 35 to 38. -/
structure FailureRow where
  pdf_name : String
  page : ℕ
  token : String
deriving DecidableEq

/-- The mutable page-resolution state of process_task: the accumulated
result rows, the accumulated failure rows, and the running counters. -/
structure LoopState where
  results : List ResultRow
  failures : List FailureRow
  totals : StatusTotals
deriving DecidableEq

/-- Resolution of a single token, main.py lines 115 to 149: look the
token up, append one hinban-kind result row per exact hit and one
spec-kind row per spec-index hit while bumping the matching counters
(the per-row appends and increments of the source aggregate to these
batch updates), and when neither lookup hit, append exactly one failure
row and bump the failure counter. -/
def processToken (u : Uni) (m : DatabaseMatcher) (pdfName : String)
    (page : ℕ) (st : LoopState) (token : String) : LoopState :=
  let mt := DatabaseMatcher.match_token u m token
  let hinbanRecs := mt.1.map (fun row =>
    ({ pdf_name := pdfName, page := page, token := token,
       matched_type := "hinban", matched_hinban := row.hinban,
       zaiko := none } : ResultRow))
  let specRecs := mt.2.map (fun row =>
    ({ pdf_name := pdfName, page := page, token := token,
       matched_type := "spec", matched_hinban := row.hinban,
       zaiko := none } : ResultRow))
  let matched := !mt.1.isEmpty || !mt.2.isEmpty
  let st1 : LoopState :=
    { results := st.results ++ hinbanRecs ++ specRecs
      failures := st.failures
      totals := { st.totals with
                  hit_hinban := st.totals.hit_hinban + mt.1.length
                  hit_spec := st.totals.hit_spec + mt.2.length } }
  if matched then st1
  else
    { st1 with
      failures := st1.failures ++ [⟨pdfName, page, token⟩]
      totals := { st1.totals with fail := st1.totals.fail + 1 } }

/-- The token loop of one page, main.py lines 115 to 149. -/
def processTokens (u : Uni) (m : DatabaseMatcher) (pdfName : String)
    (page : ℕ) (st : LoopState) (tokens : List String) : LoopState :=
  tokens.foldl (processToken u m pdfName page) st

/-- Resolution of one page of text, main.py lines 111 to 151: extract the
tokens, add their count to the token counter when any were found, then
run the token loop. -/
def processPageText (u : Uni) (m : DatabaseMatcher) (pdfName : String)
    (page : ℕ) (st : LoopState) (text : String) : LoopState :=
  let tokens := extract_tokens u text
  let st0 :=
    if tokens.isEmpty then st
    else { st with totals :=
           { st.totals with tokens := st.totals.tokens + tokens.length } }
  processTokens u m pdfName page st0 tokens

/-- A predicate preserved by every fold step holds of the fold result. -/
theorem foldl_preserve {α β : Type} (P : α → Prop) (f : α → β → α) :
    ∀ (l : List β) (init : α), P init → (∀ a b, P a → P (f a b)) →
    P (l.foldl f init) := by
  intro l
  induction l with
  | nil => intro init h0 _; exact h0
  | cons x xs ih => intro init h0 hstep; exact ih _ (hstep _ _ h0) hstep

/-- Keys of a dict after an update: every entry key was a key before or is
the inserted key. -/
theorem dictInsert_key_pred {α : Type} (P : String → Prop)
    (m : List (String × α)) (k : String) (v : α)
    (hm : ∀ p ∈ m, P p.1) (hk : P k) :
    ∀ p ∈ dictInsert m k v, P p.1 := by
  intro p hp
  unfold dictInsert at hp
  split at hp
  · obtain ⟨q, hq, hpq⟩ := List.mem_map.mp hp
    by_cases h : q.1 = k
    · simp only [if_pos h] at hpq; subst hpq; exact hk
    · simp only [if_neg h] at hpq; subst hpq; exact hm q hq
  · rcases List.mem_append.mp hp with h | h
    · exact hm p h
    · simp only [List.mem_singleton] at h; subst h; exact hk

/-- Every key of the exact map built by the loader is a non-empty string:
a row whose normalized hinban is empty is never inserted there. -/
theorem load_hinban_keys_ne_empty (u : Uni) (t : CsvTable)
    (m : DatabaseMatcher) (hm : DatabaseMatcher.load u t = Except.ok m) :
    ∀ p ∈ m.hinban_map, p.1 ≠ "" := by
  unfold DatabaseMatcher.load at hm
  split at hm
  · exact absurd hm (by simp)
  · have hme : m = t.rows.foldl (loadRowStep u ("zaiku" ∈ t.cols)) ⟨[], []⟩ := by
      injection hm with h; exact h.symm
    subst hme
    refine foldl_preserve
      (fun (st : DatabaseMatcher) => ∀ p ∈ st.hinban_map, p.1 ≠ "") _ _ _ ?_ ?_
    · intro p hp; simp at hp
    · intro st r hst
      unfold loadRowStep
      by_cases hh : normalize_text u (some r.hinban) ≠ ""
      · simp only [if_pos hh]
        exact dictInsert_key_pred (fun k => k ≠ "") _ _ _ hst hh
      · simp only [if_neg hh]
        exact hst

/-- C7: loading a reference table lacking the hinban or the kidou column
yields the schema ValueError of match.py line 32, and no matcher value is
produced at all in that case. -/
theorem load_missing_columns_errors (u : Uni) (t : CsvTable)
    (h : "hinban" ∉ t.cols ∨ "kidou" ∉ t.cols) :
    DatabaseMatcher.load u t =
      Except.error "CSVに \x27hinban\x27 と \x27kidou\x27 列が必要です。ファイルを確認してください。" := by
  unfold DatabaseMatcher.load
  rw [if_pos h]

/-- Witness for load_missing_columns_errors at a concrete table missing
the hinban column. -/
theorem load_missing_columns_errors_witness :
    ("hinban" ∉ (["kidou"] : List String) ∨
     "kidou" ∉ (["kidou"] : List String)) ∧
    DatabaseMatcher.load uniFrag ⟨["kidou"], [⟨"A1", "B2", ""⟩]⟩ =
      Except.error "CSVに \x27hinban\x27 と \x27kidou\x27 列が必要です。ファイルを確認してください。" :=
  ⟨Or.inl (by decide),
   load_missing_columns_errors uniFrag ⟨["kidou"], [⟨"A1", "B2", ""⟩]⟩
     (Or.inl (by decide))⟩

/-- C5: match_token performs the two lookups independently after one
normalization: the exact component is the zero-or-one-element list read
from the exact map, the spec component is the list read from the spec
index, and the two can be simultaneously non-empty; on an index built
from part numbers ABC123 and XYZ999 the lowercase token abc123 yields a
non-empty part-number match and an empty spec match. -/
theorem match_token_independent_lookups :
    (∀ (u : Uni) (m : DatabaseMatcher) (token : String),
      (DatabaseMatcher.match_token u m token).1.length ≤ 1 ∧
      (DatabaseMatcher.match_token u m token).1 =
        ((dictGet m.hinban_map (normalize_text u (some token))).map
          (fun r => [r])).getD [] ∧
      (DatabaseMatcher.match_token u m token).2 =
        (dictGet m.kidou_map (normalize_text u (some token))).getD []) ∧
    (DatabaseMatcher.load uniFrag
        ⟨["hinban", "kidou"], [⟨"ABC123", "", ""⟩, ⟨"XYZ999", "", ""⟩]⟩).map
      (fun m => DatabaseMatcher.match_token uniFrag m "abc123") =
      Except.ok ([⟨"ABC123", "", none⟩], []) ∧
    (DatabaseMatcher.load uniFrag
        ⟨["hinban", "kidou"], [⟨"AB100", "", ""⟩, ⟨"CD200", "FOR AB100", ""⟩]⟩).map
      (fun m => DatabaseMatcher.match_token uniFrag m "AB100") =
      Except.ok ([⟨"AB100", "", none⟩], [⟨"CD200", "FOR AB100", none⟩]) := by
  refine ⟨?_, rfl, rfl⟩
  intro u m token
  cases hd : dictGet m.hinban_map (normalize_text u (some token)) with
  | none => simp [DatabaseMatcher.match_token, hd]
  | some row => simp [DatabaseMatcher.match_token, hd]

/-- C10: a reference row whose normalized part number is empty is excluded
from the exact map (no key of a loaded exact map is the empty string) but
is still registered in the spec index under the tokens of its spec text;
on such an index, match_token returns a spec match carrying the empty
part number and retry returns a list containing the empty string. -/
theorem empty_hinban_excluded_but_spec_indexed :
    (∀ (u : Uni) (t : CsvTable) (m : DatabaseMatcher),
      DatabaseMatcher.load u t = Except.ok m →
      dictGet m.hinban_map "" = none) ∧
    DatabaseMatcher.load uniFrag ⟨["hinban", "kidou"], [⟨" ", "ZX9900 LAMP", ""⟩]⟩ =
      Except.ok ⟨[], [("ZX9900", [⟨"", "ZX9900 LAMP", none⟩])]⟩ ∧
    DatabaseMatcher.match_token uniFrag
      ⟨[], [("ZX9900", [⟨"", "ZX9900 LAMP", none⟩])]⟩ "ZX9900" =
      ([], [⟨"", "ZX9900 LAMP", none⟩]) ∧
    DatabaseMatcher.retry uniFrag
      ⟨[], [("ZX9900", [⟨"", "ZX9900 LAMP", none⟩])]⟩ "ZX9900" = [""] := by
  refine ⟨?_, rfl, rfl, rfl⟩
  intro u t m hm
  have hkeys := load_hinban_keys_ne_empty u t m hm
  unfold dictGet
  rw [List.find?_eq_none.mpr]
  · rfl
  · intro p hp
    simp only [decide_eq_true_eq]
    exact hkeys p hp

/-- Witness for the universally quantified component of
empty_hinban_excluded_but_spec_indexed, at the concrete one-row table
whose hinban cell is a single space. -/
theorem empty_hinban_excluded_witness :
    dictGet
      (DatabaseMatcher.mk [] [("ZX9900", [⟨"", "ZX9900 LAMP", none⟩])]).hinban_map
      "" = none :=
  empty_hinban_excluded_but_spec_indexed.1 uniFrag
    ⟨["hinban", "kidou"], [⟨" ", "ZX9900 LAMP", ""⟩]⟩ _ rfl

/-- C6: retry returns exactly the exact-map hit together with the part
numbers of the rows under the normalized token in the spec index, without
duplicates and sorted ascending in the Python string order. -/
theorem retry_sorted_unique (u : Uni) (m : DatabaseMatcher) (token : String) :
    List.Sorted pyStrLe (DatabaseMatcher.retry u m token) ∧
    (DatabaseMatcher.retry u m token).Nodup ∧
    ∀ x, x ∈ DatabaseMatcher.retry u m token ↔
      ((∃ row, dictGet m.hinban_map (normalize_text u (some token)) = some row ∧
          x = row.hinban) ∨
       (∃ row ∈ (dictGet m.kidou_map (normalize_text u (some token))).getD [],
          x = row.hinban)) := by
  unfold DatabaseMatcher.retry
  refine ⟨List.sorted_insertionSort _ _, ?_, ?_⟩
  · exact (List.perm_insertionSort _ _).nodup_iff.mpr (List.nodup_dedup _)
  · intro x
    rw [(List.perm_insertionSort _ _).mem_iff, List.mem_dedup, List.mem_append]
    cases hd : dictGet m.hinban_map (normalize_text u (some token)) with
    | none => simp [hd, eq_comm]
    | some row => simp [hd, eq_comm]

/-- C1: on a loaded matcher, a semantic candidate whose normalized text is
a key of the exact map resolves to status EXACT with score 1 and the
part number of that key's row; the substring, spec-keyword and fuzzy
tiers are never consulted for such a candidate, since the cascade
returns at the first tier. -/
theorem semantic_exact_tier_wins (u : Uni) (t : CsvTable)
    (m : DatabaseMatcher) (hload : DatabaseMatcher.load u t = Except.ok m)
    (θ : ℚ) (it : SemItem) (row : MatchRow)
    (hrow : dictGet m.hinban_map
      (normCandidate u (it.normalized.getD (pyStripS it.hinban))) = some row) :
    matchSemanticItem u m θ it =
      some ⟨pyStripS it.hinban,
            normCandidate u (it.normalized.getD (pyStripS it.hinban)),
            "EXACT", 1, some row.hinban, orNoneZ row.zaiku, none, none⟩ := by
  have hne : normCandidate u (it.normalized.getD (pyStripS it.hinban)) ≠ "" := by
    intro h0
    rw [h0] at hrow
    unfold dictGet at hrow
    rcases hfind : (m.hinban_map.find? (fun p => p.1 = "")) with _ | p
    · rw [hfind] at hrow; exact absurd hrow (by simp)
    · have hp := List.find?_some hfind
      have hmem := List.mem_of_find?_eq_some hfind
      simp only [decide_eq_true_eq] at hp
      exact load_hinban_keys_ne_empty u t m hload p hmem hp
  unfold matchSemanticItem
  simp only [if_neg hne]
  unfold resolveCascade
  rw [hrow]

/-- Witness for semantic_exact_tier_wins: the spec's XN100 scenario, where
the candidate equal to the sole part number resolves EXACT with score 1
rather than SUBSTR. -/
theorem semantic_exact_tier_wins_witness :
    matchSemanticItem uniFrag
      ⟨[("XN100", ⟨"XN100", "", none⟩)], []⟩ defaultFuzzyThreshold
      ⟨"XN100", none⟩ =
    some ⟨"XN100", "XN100", "EXACT", 1, some "XN100", none, none, none⟩ :=
  semantic_exact_tier_wins uniFrag
    ⟨["hinban", "kidou"], [⟨"XN100", "", ""⟩]⟩
    ⟨[("XN100", ⟨"XN100", "", none⟩)], []⟩ rfl
    defaultFuzzyThreshold ⟨"XN100", none⟩ ⟨"XN100", "", none⟩ rfl

/-- Characters of the first TOKEN_PATTERN class are alphanumeric. -/
theorem isUpperDigit_isAlphanum (c : Char) (h : isUpperDigit c = true) :
    c.isAlphanum = true := by
  simp only [isUpperDigit, decide_eq_true_eq, Char.le_def] at h
  simp only [Char.isAlphanum, Char.isAlpha, Char.isUpper, Char.isLower,
    Char.isDigit, Bool.or_eq_true, Bool.and_eq_true, decide_eq_true_eq]
  rcases h with ⟨h1, h2⟩ | ⟨h1, h2⟩
  · exact Or.inl (Or.inl ⟨h1, h2⟩)
  · exact Or.inr ⟨h1, h2⟩

/-- Characters of the TOKEN_PATTERN tail class are alphanumeric or one of
hyphen, underscore, slash. -/
theorem isTokTail_cases (c : Char) (h : isTokTail c = true) :
    c.isAlphanum = true ∨ c = '-' ∨ c = '_' ∨ c = '/' := by
  simp only [isTokTail, Bool.or_eq_true, decide_eq_true_eq] at h
  rcases h with ((h | h) | h) | h
  · exact Or.inl (isUpperDigit_isAlphanum c h)
  · exact Or.inr (Or.inl h)
  · exact Or.inr (Or.inr (Or.inl h))
  · exact Or.inr (Or.inr (Or.inr h))

/-- A list whose membership test is false does not contain the element. -/
theorem not_mem_of_contains_false {l : List String} {a : String}
    (h : l.contains a = false) : a ∉ l := fun hm => by
  have h2 : l.contains a = true := List.elem_eq_true_of_mem hm
  rw [h2] at h
  exact Bool.noConfusion h

/-- Every match emitted by the TOKEN_PATTERN scan consists of a first
character of the first class followed by at least three tail-class
characters. -/
theorem tokenScanGo_mem_shape : ∀ (f : ℕ) (l : List Char) (t : String),
    t ∈ tokenScanGo f l →
    ∃ c run, t = String.mk (c :: run) ∧ isUpperDigit c = true ∧
      (∀ x ∈ run, isTokTail x = true) ∧ 3 ≤ run.length := by
  intro f
  induction f with
  | zero => intro l t ht; simp [tokenScanGo] at ht
  | succ f ih =>
    intro l t ht
    cases l with
    | nil => simp [tokenScanGo] at ht
    | cons c rest =>
      simp only [tokenScanGo] at ht
      by_cases h1 : isUpperDigit c = true
      · rw [if_pos h1] at ht
        by_cases h2 : 3 ≤ (rest.takeWhile isTokTail).length
        · rw [if_pos h2] at ht
          rcases List.mem_cons.mp ht with h | h
          · exact ⟨c, rest.takeWhile isTokTail, h, h1,
              fun x hx => List.mem_takeWhile_imp hx, h2⟩
          · exact ih _ _ h
        · rw [if_neg h2] at ht
          exact ih _ _ ht
      · rw [if_neg h1] at ht
        exact ih _ _ ht

/-- C4: every list returned by extract_tokens is sorted in the Python
string order and duplicate-free, and each returned token is at least four
characters long, contains a digit, starts with an alphanumeric character,
consists only of alphanumerics and hyphen, underscore, slash, and is not
a blacklist entry; the function is total, and inputs with no qualifying
run give the empty list. -/
theorem extract_tokens_output_spec (u : Uni) (text : String) :
    List.Sorted pyStrLe (extract_tokens u text) ∧
    (extract_tokens u text).Nodup ∧
    ∀ tok ∈ extract_tokens u text,
      4 ≤ tok.length ∧
      (∃ c ∈ tok.data, c.isDigit = true) ∧
      (∀ c ∈ tok.data, c.isAlphanum = true ∨ c = '-' ∨ c = '_' ∨ c = '/') ∧
      (∃ c cs, tok.data = c :: cs ∧ c.isAlphanum = true) ∧
      tok ∉ BLACKLIST := by
  unfold extract_tokens
  refine ⟨List.sorted_insertionSort _ _,
    (List.perm_insertionSort _ _).nodup_iff.mpr (List.nodup_dedup _), ?_⟩
  intro tok htok
  rw [(List.perm_insertionSort _ _).mem_iff, List.mem_dedup,
    List.mem_filter] at htok
  obtain ⟨hscan, hpred⟩ := htok
  rw [Bool.and_eq_true, Bool.not_eq_true'] at hpred
  obtain ⟨hdig, hbl⟩ := hpred
  obtain ⟨c, run, htok, hc, hrun, hlen⟩ :=
    tokenScanGo_mem_shape _ _ tok hscan
  subst htok
  refine ⟨?_, ?_, ?_, ?_, not_mem_of_contains_false hbl⟩
  · show 4 ≤ (c :: run).length
    simp only [List.length_cons]
    omega
  · exact List.any_eq_true.mp hdig
  · intro x hx
    rcases List.mem_cons.mp hx with h | h
    · subst h; exact Or.inl (isUpperDigit_isAlphanum x hc)
    · exact isTokTail_cases x (hrun x h)
  · exact ⟨c, run, rfl, isUpperDigit_isAlphanum c hc⟩

/-- Witness for extract_tokens_output_spec: the token AB12 extracted from
a lowercase input is at least four characters long. -/
theorem extract_tokens_output_spec_witness :
    "AB12" ∈ extract_tokens uniFrag "ab12 xx" ∧ 4 ≤ "AB12".length :=
  ⟨by decide,
   ((extract_tokens_output_spec uniFrag "ab12 xx").2.2 "AB12" (by decide)).1⟩

/-- The extraction loop always returns a tagged result whose method is
gpt_tool or regex_fallback, whatever the client trace does. -/
theorem extractLoopR_method (u : Uni) (text : String)
    (trace : ℕ → ApiResult) :
    ∀ (r attempt : ℕ),
      (extractLoopR u text trace r attempt).method = "gpt_tool" ∨
      (extractLoopR u text trace r attempt).method = "regex_fallback" := by
  intro r
  induction r with
  | zero => intro attempt; right; rfl
  | succ r ih =>
    intro attempt
    rcases htr : trace (attempt + 1) with s | _ | _ | _ | parsed
    · simp only [extractLoopR, htr]
      split_ifs
      · rcases ih (attempt + 1) with h | h
        · left; simpa using h
        · right; simpa using h
      · right; rfl
    · simp only [extractLoopR, htr]; right; rfl
    · simp only [extractLoopR, htr]; right; rfl
    · simp only [extractLoopR, htr]; right; rfl
    · simp only [extractLoopR, htr]
      split_ifs
      · right; rfl
      · left; rfl

/-- C8: semantic extraction is total and tagged (method gpt_tool or
regex_fallback, never a propagated exception); a first-attempt failure
with a non-transient status, a missing tool call, unparsable arguments, a
non-list items value, or an empty deduplicated list downgrades to the
regex fallback immediately with no sleep; a transient status (429, 500,
502, 503, 504) sleeps backoff 3/2 to the power of the attempt index and
retries, at most three attempts in all, after which the regex fallback is
returned. -/
theorem semantic_extract_retry_fallback :
    (∀ (u : Uni) (text : String) (trace : ℕ → ApiResult),
      (extract_hinbans_with_gpt u text trace).method = "gpt_tool" ∨
      (extract_hinbans_with_gpt u text trace).method = "regex_fallback") ∧
    (∀ u text trace s, trace 1 = ApiResult.apiRaises s →
      transientStatus s = false →
      extract_hinbans_with_gpt u text trace = fallbackOut u text) ∧
    (∀ u text trace, (trace 1 = ApiResult.noToolCalls ∨
        trace 1 = ApiResult.argsUnparsable ∨
        trace 1 = ApiResult.itemsNotList) →
      extract_hinbans_with_gpt u text trace = fallbackOut u text) ∧
    (∀ u text trace l, trace 1 = ApiResult.items l → uniqueItems u l = [] →
      extract_hinbans_with_gpt u text trace = fallbackOut u text) ∧
    (∀ u text trace l, trace 1 = ApiResult.items l → uniqueItems u l ≠ [] →
      extract_hinbans_with_gpt u text trace =
        ⟨"gpt_tool", uniqueItems u l, []⟩) ∧
    (∀ u text trace s1 l, trace 1 = ApiResult.apiRaises s1 →
      transientStatus s1 = true →
      trace 2 = ApiResult.items l → uniqueItems u l ≠ [] →
      extract_hinbans_with_gpt u text trace =
        ⟨"gpt_tool", uniqueItems u l, [((3 : ℚ) / 2) ^ 1]⟩) ∧
    (∀ u text trace s1 s2 s3, trace 1 = ApiResult.apiRaises s1 →
      transientStatus s1 = true →
      trace 2 = ApiResult.apiRaises s2 → transientStatus s2 = true →
      trace 3 = ApiResult.apiRaises s3 →
      extract_hinbans_with_gpt u text trace =
        ⟨"regex_fallback", fallbackRegex u text,
         [((3 : ℚ) / 2) ^ 1, ((3 : ℚ) / 2) ^ 2]⟩) := by
  refine ⟨?_, ?_, ?_, ?_, ?_, ?_, ?_⟩
  · intro u text trace; exact extractLoopR_method u text trace 3 0
  · intro u text trace s h1 hs
    simp only [extract_hinbans_with_gpt, extractLoopR]
    simp [h1, hs]
  · intro u text trace h1
    rcases h1 with h1 | h1 | h1 <;>
      (simp only [extract_hinbans_with_gpt, extractLoopR]; simp [h1])
  · intro u text trace l h1 hl
    simp only [extract_hinbans_with_gpt, extractLoopR]
    simp [h1, hl]
  · intro u text trace l h1 hl
    simp only [extract_hinbans_with_gpt, extractLoopR]
    simp [h1, List.isEmpty_iff, hl]
  · intro u text trace s1 l h1 hs1 h2 hl
    simp only [extract_hinbans_with_gpt, extractLoopR]
    simp [h1, h2, hs1, List.isEmpty_iff, hl, fallbackOut]
  · intro u text trace s1 s2 s3 h1 hs1 h2 hs2 h3
    simp only [extract_hinbans_with_gpt, extractLoopR]
    simp [h1, h2, h3, hs1, hs2, fallbackOut]

/-- Witness for semantic_extract_retry_fallback: a first response with no
tool call downgrades immediately to the (empty) regex fallback on empty
text, with no sleeps. -/
theorem semantic_extract_retry_fallback_witness :
    extract_hinbans_with_gpt uniFrag ""
      (fun _ => ApiResult.noToolCalls) = fallbackOut uniFrag "" :=
  semantic_extract_retry_fallback.2.2.1 uniFrag ""
    (fun _ => ApiResult.noToolCalls) (Or.inl rfl)

/-- Counter consistency of a resolution state: the failure counter equals
the number of failure rows and each hit counter equals the number of
result rows of its kind. -/
def countersConsistent (st : LoopState) : Prop :=
  st.totals.fail = st.failures.length ∧
  st.totals.hit_hinban =
    (st.results.filter (fun r => r.matched_type = "hinban")).length ∧
  st.totals.hit_spec =
    (st.results.filter (fun r => r.matched_type = "spec")).length

/-- Filtering a mapped list by a predicate true on every image keeps the
whole list. -/
theorem length_filter_map_true {α β : Type} (rows : List α) (f : α → β)
    (p : β → Bool) (h : ∀ x, p (f x) = true) :
    ((rows.map f).filter p).length = rows.length := by
  induction rows with
  | nil => rfl
  | cons x xs ih => simp [h, ih]

/-- Filtering a mapped list by a predicate false on every image drops the
whole list. -/
theorem length_filter_map_false {α β : Type} (rows : List α) (f : α → β)
    (p : β → Bool) (h : ∀ x, p (f x) = false) :
    ((rows.map f).filter p).length = 0 := by
  induction rows with
  | nil => rfl
  | cons x xs ih => simp [h, ih]

/-- C9: each token resolution either appends at least one result row and
no failure row, or appends exactly one failure row and no result row,
never both; and the running counters stay consistent with the record
lists across any token sequence, so at every intermediate point the
failure counter equals the number of failure entries and each hit counter
the number of records of its kind. -/
theorem process_tokens_records_and_counters :
    (∀ (u : Uni) (m : DatabaseMatcher) (pdfName : String) (page : ℕ)
        (st : LoopState) (token : String),
      (((processToken u m pdfName page st token).failures = st.failures ∧
        st.results.length <
          (processToken u m pdfName page st token).results.length) ∨
       ((processToken u m pdfName page st token).results = st.results ∧
        (processToken u m pdfName page st token).failures =
          st.failures ++ [⟨pdfName, page, token⟩]))) ∧
    (∀ (u : Uni) (m : DatabaseMatcher) (pdfName : String) (page : ℕ)
        (st : LoopState) (tokens : List String),
      countersConsistent st →
      countersConsistent (processTokens u m pdfName page st tokens)) := by
  have hstep : ∀ (u : Uni) (m : DatabaseMatcher) (pdfName : String)
      (page : ℕ) (st : LoopState) (token : String),
      countersConsistent st →
      countersConsistent (processToken u m pdfName page st token) := by
    intro u m pdfName page st token hc
    obtain ⟨hf, hh, hs⟩ := hc
    simp only [processToken]
    unfold countersConsistent
    have hhinban : ∀ kind rows,
        (((DatabaseMatcher.match_token u m token).1.map (fun row =>
          ({ pdf_name := pdfName, page := page, token := token,
             matched_type := kind, matched_hinban := row.hinban,
             zaiko := none } : ResultRow))).filter
          (fun r => r.matched_type = rows)).length =
        if kind = rows then (DatabaseMatcher.match_token u m token).1.length
        else 0 := by
      intro kind rows
      by_cases h : kind = rows
      · rw [if_pos h]
        exact length_filter_map_true _ _ _ (fun x => by simp [h])
      · rw [if_neg h]
        exact length_filter_map_false _ _ _ (fun x => by simp [h])
    have hspec : ∀ kind rows,
        (((DatabaseMatcher.match_token u m token).2.map (fun row =>
          ({ pdf_name := pdfName, page := page, token := token,
             matched_type := kind, matched_hinban := row.hinban,
             zaiko := none } : ResultRow))).filter
          (fun r => r.matched_type = rows)).length =
        if kind = rows then (DatabaseMatcher.match_token u m token).2.length
        else 0 := by
      intro kind rows
      by_cases h : kind = rows
      · rw [if_pos h]
        exact length_filter_map_true _ _ _ (fun x => by simp [h])
      · rw [if_neg h]
        exact length_filter_map_false _ _ _ (fun x => by simp [h])
    split_ifs with hmatched
    · refine ⟨by simp [hf], ?_, ?_⟩
      · simp [List.filter_append, hh, hhinban, hspec]
      · simp [List.filter_append, hs, hhinban, hspec]
    · refine ⟨by simp [hf], ?_, ?_⟩
      · simp [List.filter_append, hh, hhinban, hspec]
      · simp [List.filter_append, hs, hhinban, hspec]
  constructor
  · intro u m pdfName page st token
    simp only [processToken]
    split_ifs with hmatched
    · left
      refine ⟨rfl, ?_⟩
      simp only [List.append_assoc, List.length_append, List.length_map]
      rcases Bool.or_eq_true_iff.mp hmatched with h | h
      · have : (DatabaseMatcher.match_token u m token).1 ≠ [] := by
          intro h0; rw [h0] at h; simp at h
        have := List.length_pos.mpr this
        omega
      · have : (DatabaseMatcher.match_token u m token).2 ≠ [] := by
          intro h0; rw [h0] at h; simp at h
        have := List.length_pos.mpr this
        omega
    · right
      have h1 : (DatabaseMatcher.match_token u m token).1 = [] := by
        by_contra h0
        simp [List.isEmpty_iff, h0] at hmatched
      have h2 : (DatabaseMatcher.match_token u m token).2 = [] := by
        by_contra h0
        simp [List.isEmpty_iff, h0] at hmatched
      constructor
      · simp [h1, h2]
      · simp
  · intro u m pdfName page st tokens hc
    exact foldl_preserve countersConsistent _ tokens st hc
      (fun a b ha => hstep u m pdfName page a b ha)

/-- Witness for process_tokens_records_and_counters: starting from the
empty consistent state, resolving one token against the empty matcher
keeps the counters consistent. -/
theorem process_tokens_records_and_counters_witness :
    countersConsistent ⟨[], [], ⟨0, 0, 0, 0⟩⟩ ∧
    countersConsistent
      (processTokens uniFrag ⟨[], []⟩ "a.pdf" 1 ⟨[], [], ⟨0, 0, 0, 0⟩⟩
        ["T1000"]) :=
  ⟨⟨rfl, rfl, rfl⟩,
   process_tokens_records_and_counters.2 uniFrag ⟨[], []⟩ "a.pdf" 1
     ⟨[], [], ⟨0, 0, 0, 0⟩⟩ ["T1000"] ⟨rfl, rfl, rfl⟩⟩

/-- The maximum edit-similarity ratio of a candidate against every
reference part number, zero when there are none: the quantity the fuzzy
tier compares against the threshold. -/
def bestFuzzyRatioVal (n : String) (rows : List MatchRow) : ℚ :=
  (rows.map (fun c => seqRatioVal n.data c.hinban.data)).foldl max 0

/-- The first component of the fuzzy scan is the running maximum of the
ratios. -/
theorem fuzzyScan_fst (n : String) : ∀ (rows : List MatchRow) (b : ℚ)
    (r : Option MatchRow),
    (rows.foldl (fuzzyStep n) (b, r)).1 =
    (rows.map (fun c => seqRatioVal n.data c.hinban.data)).foldl max b := by
  intro rows
  induction rows with
  | nil => intro b r; rfl
  | cons c cs ih =>
    intro b r
    simp only [List.foldl_cons, List.map_cons, fuzzyStep]
    by_cases hq : b < seqRatioVal n.data c.hinban.data
    · rw [if_pos hq, ih]
      congr 1
      exact (max_eq_right (le_of_lt hq)).symm
    · rw [if_neg hq, ih]
      congr 1
      exact (max_eq_left (not_lt.mp hq)).symm

/-- When the fuzzy scan ends with no best row, its maximum is still the
initial zero: no ratio ever exceeded it. -/
theorem fuzzyScan_none_fst (n : String) : ∀ (rows : List MatchRow) (b : ℚ)
    (r : Option MatchRow), (r = none → b = 0) →
    (rows.foldl (fuzzyStep n) (b, r)).2 = none →
    (rows.foldl (fuzzyStep n) (b, r)).1 = 0 := by
  intro rows
  induction rows with
  | nil => intro b r h hnone; exact h hnone
  | cons c cs ih =>
    intro b r h
    simp only [List.foldl_cons, fuzzyStep]
    by_cases hq : b < seqRatioVal n.data c.hinban.data
    · rw [if_pos hq]
      exact ih _ _ (fun h' => nomatch h')
    · rw [if_neg hq]
      exact ih _ _ h

/-- C2: a candidate that reaches the fuzzy tier (exact lookup empty,
substring scan empty, retry empty) is accepted exactly when the maximum
ratio against all reference part numbers reaches the threshold: at or
above it the status is FUZZY with score the maximum ratio rounded to
three digits, and strictly below it the result is NONE with score 0 and
both matched fields unset. -/
theorem fuzzy_tier_threshold (u : Uni) (m : DatabaseMatcher) (θ : ℚ)
    (hθ : 0 < θ) (h n : String)
    (hex : dictGet m.hinban_map n = none)
    (hsub : (dictValues m.hinban_map).find? (fun c =>
        (n ≠ "" && pyIn n c.hinban) ||
        (c.hinban ≠ "" && pyIn c.hinban n)) = none)
    (hretry : DatabaseMatcher.retry u m n = []) :
    (θ ≤ bestFuzzyRatioVal n (dictValues m.hinban_map) →
      (resolveCascade u m θ h n).match_status = "FUZZY" ∧
      (resolveCascade u m θ h n).score =
        pyRound3 (bestFuzzyRatioVal n (dictValues m.hinban_map))) ∧
    (bestFuzzyRatioVal n (dictValues m.hinban_map) < θ →
      resolveCascade u m θ h n =
        ⟨h, n, "NONE", 0, none, none, none, none⟩) := by
  have hfst : (fuzzyScan n (dictValues m.hinban_map)).1 =
      bestFuzzyRatioVal n (dictValues m.hinban_map) :=
    fuzzyScan_fst n (dictValues m.hinban_map) 0 none
  constructor
  · intro hge
    rcases hsome : (fuzzyScan n (dictValues m.hinban_map)).2 with _ | row
    · exfalso
      have h0 : (fuzzyScan n (dictValues m.hinban_map)).1 = 0 :=
        fuzzyScan_none_fst n (dictValues m.hinban_map) 0 none
          (fun _ => rfl) hsome
      rw [hfst] at h0
      rw [h0] at hge
      exact absurd (lt_of_lt_of_le hθ hge) (lt_irrefl 0)
    · have hif : θ ≤ (fuzzyScan n (dictValues m.hinban_map)).1 := by
        rw [hfst]; exact hge
      constructor
      · simp only [resolveCascade, hex, hsub, hretry, hsome, if_pos hif]
      · simp only [resolveCascade, hex, hsub, hretry, hsome, hfst, if_pos hge]
  · intro hlt
    rcases hsome : (fuzzyScan n (dictValues m.hinban_map)).2 with _ | row
    · simp only [resolveCascade, hex, hsub, hretry, hsome]
    · have hif : ¬ θ ≤ (fuzzyScan n (dictValues m.hinban_map)).1 := by
        rw [hfst]; exact not_le.mpr hlt
      simp only [resolveCascade, hex, hsub, hretry, hsome, if_neg hif]

/-- Witness for fuzzy_tier_threshold: against a single unrelated
reference row the candidate AAAA reaches the fuzzy tier with threshold 1
and is rejected with status NONE when its best ratio is below it. -/
theorem fuzzy_tier_threshold_witness :
    (0 : ℚ) < 1 ∧
    (bestFuzzyRatioVal "AAAA"
        (dictValues (DatabaseMatcher.mk
          [("ZZZZZ", ⟨"ZZZZZ", "", none⟩)] []).hinban_map) < 1 →
      resolveCascade uniFrag
        (DatabaseMatcher.mk [("ZZZZZ", ⟨"ZZZZZ", "", none⟩)] []) 1
        "AAAA" "AAAA" =
        ⟨"AAAA", "AAAA", "NONE", 0, none, none, none, none⟩) :=
  ⟨one_pos,
   (fuzzy_tier_threshold uniFrag
     (DatabaseMatcher.mk [("ZZZZZ", ⟨"ZZZZZ", "", none⟩)] []) 1 one_pos
     "AAAA" "AAAA" rfl rfl rfl).2⟩

/-- Adjacency relation of whitespace-collapsed text: no two adjacent
characters are both whitespace. -/
def wsChainRel (a b : Char) : Prop :=
  ¬(isPySpace a = true ∧ isPySpace b = true)

/-- The dash map never leaves a dash variant in its output. -/
theorem replaceDashes_no_dash (s : String) :
    ∀ c ∈ (replaceDashes s).data,
      ¬(c = '–' ∨ c = '—' ∨ c = '−') := by
  intro c hc
  unfold replaceDashes at hc
  obtain ⟨x, _, hxc⟩ := List.mem_map.mp hc
  by_cases hx : x = '–' ∨ x = '—' ∨ x = '−'
  · rw [if_pos hx] at hxc; subst hxc; decide
  · rw [if_neg hx] at hxc; subst hxc; exact hx

/-- Characters of the collapse output are a space or characters of the
input. -/
theorem collapse_mem : ∀ (l : List Char) (b : Bool) (c : Char),
    c ∈ collapseWsGo b l → c = ' ' ∨ c ∈ l := by
  intro l
  induction l with
  | nil => intro b c hc; simp [collapseWsGo] at hc
  | cons d rest ih =>
    intro b c hc
    simp only [collapseWsGo] at hc
    by_cases hd : isPySpace d = true
    · rw [if_pos hd] at hc
      cases b with
      | true =>
        rcases ih true c hc with h | h
        · exact Or.inl h
        · exact Or.inr (List.mem_cons_of_mem _ h)
      | false =>
        rcases List.mem_cons.mp hc with h | h
        · exact Or.inl h
        · rcases ih true c h with h' | h'
          · exact Or.inl h'
          · exact Or.inr (List.mem_cons_of_mem _ h')
    · rw [if_neg hd] at hc
      rcases List.mem_cons.mp hc with h | h
      · subst h; exact Or.inr (List.mem_cons_self _ _)
      · rcases ih false c h with h' | h'
        · exact Or.inl h'
        · exact Or.inr (List.mem_cons_of_mem _ h')

/-- Every whitespace character of the collapse output is the plain
space. -/
theorem collapse_allspace : ∀ (l : List Char) (b : Bool) (c : Char),
    c ∈ collapseWsGo b l → isPySpace c = true → c = ' ' := by
  intro l
  induction l with
  | nil => intro b c hc; simp [collapseWsGo] at hc
  | cons d rest ih =>
    intro b c hc hws
    simp only [collapseWsGo] at hc
    by_cases hd : isPySpace d = true
    · rw [if_pos hd] at hc
      cases b with
      | true => exact ih true c hc hws
      | false =>
        rcases List.mem_cons.mp hc with h | h
        · exact h
        · exact ih true c h hws
    · rw [if_neg hd] at hc
      rcases List.mem_cons.mp hc with h | h
      · subst h; rw [hws] at hd; exact absurd rfl hd
      · exact ih false c h hws

/-- The collapse run entered with the whitespace flag set starts with a
non-whitespace character when it is non-empty. -/
theorem collapse_head_true : ∀ (l : List Char) (c : Char),
    (collapseWsGo true l).head? = some c → isPySpace c = false := by
  intro l
  induction l with
  | nil => intro c hc; simp [collapseWsGo] at hc
  | cons d rest ih =>
    intro c hc
    simp only [collapseWsGo] at hc
    by_cases hd : isPySpace d = true
    · rw [if_pos hd] at hc
      exact ih c hc
    · rw [if_neg hd] at hc
      simp only [List.head?_cons, Option.some.injEq] at hc
      subst hc
      exact Bool.not_eq_true _ ▸ hd

/-- The collapse output never has two adjacent whitespace characters. -/
theorem collapse_chain : ∀ (l : List Char) (b : Bool),
    List.Chain' wsChainRel (collapseWsGo b l) := by
  intro l
  induction l with
  | nil => intro b; simp [collapseWsGo]
  | cons d rest ih =>
    intro b
    simp only [collapseWsGo]
    by_cases hd : isPySpace d = true
    · rw [if_pos hd]
      cases b with
      | true => exact ih true
      | false =>
        refine List.chain'_cons'.mpr ⟨?_, ih true⟩
        intro y hy
        have := collapse_head_true rest y hy
        intro hcontra
        rw [this] at hcontra
        exact Bool.noConfusion hcontra.2
    · rw [if_neg hd]
      refine List.chain'_cons'.mpr ⟨?_, ih false⟩
      intro y _
      intro hcontra
      exact hd hcontra.1

/-- A list that uses only the plain space as whitespace and has no two
adjacent whitespace characters is a fixed point of the collapse; with the
flag set this additionally requires a non-whitespace head. -/
theorem collapse_fixed : ∀ (z : List Char),
    (∀ c ∈ z, isPySpace c = true → c = ' ') →
    List.Chain' wsChainRel z →
    collapseWsGo false z = z ∧
    ((∀ c, z.head? = some c → isPySpace c = false) →
      collapseWsGo true z = z) := by
  intro z
  induction z with
  | nil => intro _ _; exact ⟨rfl, fun _ => rfl⟩
  | cons c rest ih =>
    intro hall hchain
    have hallr : ∀ x ∈ rest, isPySpace x = true → x = ' ' :=
      fun x hx => hall x (List.mem_cons_of_mem _ hx)
    obtain ⟨ih1, ih2⟩ := ih hallr hchain.tail
    by_cases hws : isPySpace c = true
    · have hc : c = ' ' := hall c (List.mem_cons_self _ _) hws
      have hnext : ∀ d, rest.head? = some d → isPySpace d = false := by
        intro d hd
        have hr := (List.chain'_cons'.mp hchain).1 d hd
        by_cases h0 : isPySpace d = true
        · exact absurd ⟨hws, h0⟩ hr
        · exact Bool.not_eq_true _ ▸ h0
      constructor
      · simp only [collapseWsGo, if_pos hws]
        rw [ih2 hnext, hc]
        rfl
      · intro hhead
        have := hhead c rfl
        rw [this] at hws
        exact Bool.noConfusion hws
    · have hws' : isPySpace c = false := Bool.not_eq_true _ ▸ hws
      constructor
      · simp only [collapseWsGo, if_neg hws]
        rw [ih1]
      · intro _
        simp only [collapseWsGo, if_neg hws]
        rw [ih1]

/-- The head of a dropWhile result falsifies the predicate. -/
theorem dropWhile_head_not {p : Char → Bool} : ∀ (l : List Char) (c : Char),
    (l.dropWhile p).head? = some c → p c = false := by
  intro l
  induction l with
  | nil => intro c hc; simp at hc
  | cons d rest ih =>
    intro c hc
    rw [List.dropWhile_cons] at hc
    by_cases hd : p d = true
    · rw [if_pos hd] at hc
      exact ih c hc
    · rw [if_neg hd] at hc
      simp only [List.head?_cons, Option.some.injEq] at hc
      subst hc
      exact Bool.not_eq_true _ ▸ hd

/-- Stripping yields a sublist. -/
theorem pyStrip_sublist (l : List Char) : (pyStrip l).Sublist l := by
  unfold pyStrip
  have h1 : (l.dropWhile isPySpace).Sublist l := List.dropWhile_sublist _
  have h2 := (List.dropWhile_sublist (l := (l.dropWhile isPySpace).reverse)
    isPySpace).reverse
  rw [List.reverse_reverse] at h2
  exact h2.trans h1

/-- Stripping preserves the no-adjacent-whitespace property. -/
theorem pyStrip_chain (l : List Char)
    (h : List.Chain' wsChainRel l) :
    List.Chain' wsChainRel (pyStrip l) := by
  have hsymm : ∀ a b, wsChainRel a b → flip wsChainRel a b :=
    fun a b hab hc => hab ⟨hc.2, hc.1⟩
  have s1 : List.Chain' wsChainRel (l.dropWhile isPySpace) :=
    h.suffix (List.dropWhile_suffix _)
  have s2 : List.Chain' wsChainRel (l.dropWhile isPySpace).reverse :=
    List.chain'_reverse.mpr (s1.imp hsymm)
  have s3 : List.Chain' wsChainRel
      ((l.dropWhile isPySpace).reverse.dropWhile isPySpace) :=
    s2.suffix (List.dropWhile_suffix _)
  exact List.chain'_reverse.mpr (s3.imp hsymm)

/-- The head of a stripped list is never whitespace. -/
theorem pyStrip_head_not (l : List Char) (c : Char)
    (h : (pyStrip l).head? = some c) : isPySpace c = false := by
  unfold pyStrip at h
  have hpre := (List.dropWhile_suffix
    (l := (l.dropWhile isPySpace).reverse) isPySpace).reverse
  rw [List.reverse_reverse] at hpre
  obtain ⟨t, ht⟩ := hpre
  have hq : (l.dropWhile isPySpace).head? = some c := by
    rw [← ht, List.head?_append, h]
    rfl
  exact dropWhile_head_not l c hq

/-- The last character of a stripped list is never whitespace. -/
theorem pyStrip_last_not (l : List Char) (c : Char)
    (h : (pyStrip l).getLast? = some c) : isPySpace c = false := by
  unfold pyStrip at h
  rw [List.getLast?_reverse] at h
  exact dropWhile_head_not _ c h

/-- A list whose head falsifies the predicate is fixed by dropWhile. -/
theorem dropWhile_eq_self_of_head {p : Char → Bool} (l : List Char)
    (h : ∀ c, l.head? = some c → p c = false) : l.dropWhile p = l := by
  cases l with
  | nil => rfl
  | cons c rest =>
    rw [List.dropWhile_cons, if_neg]
    simp [h c rfl]

/-- A list with non-whitespace head and last character is fixed by the
strip. -/
theorem pyStrip_eq_self (l : List Char)
    (hh : ∀ c, l.head? = some c → isPySpace c = false)
    (hl : ∀ c, l.getLast? = some c → isPySpace c = false) :
    pyStrip l = l := by
  unfold pyStrip
  rw [dropWhile_eq_self_of_head l hh]
  rw [dropWhile_eq_self_of_head l.reverse
    (fun c hc => hl c (by rw [← List.head?_reverse]; exact hc))]
  exact List.reverse_reverse l

/-- Stripping is idempotent. -/
theorem pyStrip_idem (l : List Char) : pyStrip (pyStrip l) = pyStrip l :=
  pyStrip_eq_self _ (pyStrip_head_not l) (pyStrip_last_not l)

/-- A string free of dash variants is fixed by the dash map. -/
theorem replaceDashes_eq_self (t : String)
    (h : ∀ c ∈ t.data, ¬(c = '–' ∨ c = '—' ∨ c = '−')) :
    replaceDashes t = t := by
  unfold replaceDashes
  have hmap : t.data.map (fun c =>
      if c = '–' ∨ c = '—' ∨ c = '−' then '-' else c) =
      t.data.map id := by
    apply List.map_congr_left
    intro c hc
    exact if_neg (h c hc)
  rw [hmap, List.map_id]

/-- C3 counterexample: normalize_text is not idempotent.  On the single
character U+0390 (Greek small letter iota with dialytika and tonos), NFKC
leaves the character unchanged and the full uppercase mapping of
SpecialCasing.txt expands it to U+0399 U+0308 U+0301; a second pass
recomposes U+0399 U+0308 canonically into U+03AA, so the output changes
again. -/
theorem normalize_text_not_idempotent :
    normalize_text uniFrag (some (normalize_text uniFrag (some "ΐ"))) ≠
    normalize_text uniFrag (some "ΐ") := by decide

/-- C3 amended: normalize_text is total, the None and empty inputs give
the empty string, and it is idempotent on every string whose normalized
form is fixed by the NFKC and uppercase tables (in particular on every
ASCII string); full idempotence fails, see
normalize_text_not_idempotent. -/
theorem normalize_text_total_and_stable_idempotent (u : Uni)
    (hn0 : u.nfkc "" = "") (hu0 : u.upper "" = "") :
    normalize_text u none = "" ∧
    normalize_text u (some "") = "" ∧
    ∀ s : String,
      u.nfkc (normalize_text u (some s)) = normalize_text u (some s) →
      u.upper (normalize_text u (some s)) = normalize_text u (some s) →
      normalize_text u (some (normalize_text u (some s))) =
        normalize_text u (some s) := by
  refine ⟨rfl, ?_, ?_⟩
  · show String.mk
      (pyStrip (collapseWs (replaceDashes (u.upper (u.nfkc ""))).data)) = ""
    rw [hn0, hu0]
    rfl
  · intro s hn hu
    have htd : (normalize_text u (some s)).data =
        pyStrip (collapseWs (replaceDashes (u.upper (u.nfkc s))).data) := rfl
    show String.mk
      (pyStrip (collapseWs (replaceDashes
        (u.upper (u.nfkc (normalize_text u (some s))))).data)) =
      normalize_text u (some s)
    rw [hn, hu]
    have hnodash : ∀ c ∈ (normalize_text u (some s)).data,
        ¬(c = '–' ∨ c = '—' ∨ c = '−') := by
      intro c hc
      rw [htd] at hc
      have hc2 := (pyStrip_sublist _).subset hc
      rcases collapse_mem _ _ c hc2 with h' | h'
      · subst h'; decide
      · exact replaceDashes_no_dash _ c h'
    rw [replaceDashes_eq_self _ hnodash]
    have hall : ∀ c ∈ (normalize_text u (some s)).data,
        isPySpace c = true → c = ' ' := by
      intro c hc hws
      rw [htd] at hc
      exact collapse_allspace _ _ c ((pyStrip_sublist _).subset hc) hws
    have hchain : List.Chain' wsChainRel (normalize_text u (some s)).data := by
      rw [htd]
      exact pyStrip_chain _ (collapse_chain _ _)
    have hcol : collapseWs (normalize_text u (some s)).data =
        (normalize_text u (some s)).data := (collapse_fixed _ hall hchain).1
    rw [hcol]
    have hps : pyStrip (normalize_text u (some s)).data =
        (normalize_text u (some s)).data := by
      rw [htd]
      exact pyStrip_idem _
    rw [hps]

/-- Witness for normalize_text_total_and_stable_idempotent at the concrete
fragment tables and an ASCII input containing an en dash and doubled
spaces. -/
theorem normalize_text_total_and_stable_idempotent_witness :
    uniFrag.nfkc "" = "" ∧ uniFrag.upper "" = "" ∧
    normalize_text uniFrag
      (some (normalize_text uniFrag (some "a–12  3c "))) =
      normalize_text uniFrag (some "a–12  3c ") :=
  ⟨rfl, rfl,
   (normalize_text_total_and_stable_idempotent uniFrag rfl rfl).2.2
     "a–12  3c " (by decide) (by decide)⟩
